import Mathlib

/-!
Shallow embedding of the graphviz repository's `lang.py` (DOT language
helpers): identifier quoting (`quote`), edge-endpoint quoting (`quote_edge`)
and attribute-list assembly (`a_list`, `attr_list`), together with theorems
settling the specification claims about them.

Strings are modelled as their character lists (`String.data`).  The three
regular expressions `ID`, `KEYWORD` and `HTML_STRING` of `lang.py` are
compiled by hand into executable full-string matchers for their groups, and
Python's `Pattern.match` truthiness for a pattern of the shape `(group)$` is
modelled by `pyMatch`: Python's `$` anchor matches at the very end of the
string or just before a newline that ends the string.  Character classes are
modelled over ASCII (`[a-zA-Z_]`, `[0-9]`), as the claims and the spec use
them.
-/

namespace GraphvizLang

/-- The replacement step inside `quote`'s quoting branch,
`identifier.replace` of each double-quote character by backslash plus
double quote: every embedded double quote is prefixed with a backslash and
no other character is altered. -/
def escapeQuotes : List Char → List Char
  | [] => []
  | c :: t => if c = '"' then '\\' :: '"' :: escapeQuotes t else c :: escapeQuotes t

/-- Full-string matcher for the first alternative of the `ID` pattern group,
the bare identifier `[a-zA-Z_][a-zA-Z0-9_]*`. -/
def isIdentG : List Char → Bool
  | [] => false
  | c :: t => (c.isAlpha || c == '_') && t.all (fun x => x.isAlphanum || x == '_')

/-- The part of the numeral alternative of `ID` after the optional minus
sign, `\.\d+|\d+(\.\d*)?`: either a leading-dot fractional literal or
digits with an optional fractional part. -/
def numBodyG (t : List Char) : Bool :=
  if t.head? == some '.' then !(t.drop 1).isEmpty && (t.drop 1).all Char.isDigit
  else
    let ds := t.takeWhile Char.isDigit
    let rest := t.dropWhile Char.isDigit
    !ds.isEmpty && (rest.isEmpty || (rest.head? == some '.' && (rest.drop 1).all Char.isDigit))

/-- Full-string matcher for the numeral alternative of the `ID` pattern
group, `-?(\.\d+|\d+(\.\d*)?)`: optional leading minus, then either a
leading-dot fractional literal or digits with an optional fractional part. -/
def numeralG (l : List Char) : Bool :=
  if l.head? == some '-' then numBodyG (l.drop 1) else numBodyG l

/-- Full-string matcher for the group of the `ID` pattern of `lang.py`:
`([a-zA-Z_][a-zA-Z0-9_]*|-?(\.\d+|\d+(\.\d*)?))`. -/
def idOrNumG (l : List Char) : Bool := isIdentG l || numeralG l

/-- Full-string matcher for the group of the `KEYWORD` pattern of `lang.py`:
one of the six reserved words, case-insensitively (case folding modelled
over ASCII via `Char.toLower`). -/
def kwGroup (l : List Char) : Bool :=
  let low := l.map Char.toLower
  low == "node".data || low == "edge".data || low == "graph".data ||
    low == "digraph".data || low == "subgraph".data || low == "strict".data

/-- Full-string matcher for the group of the `HTML_STRING` pattern of
`lang.py`, `<.*>` under `re.DOTALL`: at least two characters, the first one
the less-than sign and the last one the greater-than sign, with arbitrary
content (newlines included) in between. -/
def htmlGroup : List Char → Bool
  | c :: b :: rest => c == '<' && ((b :: rest).getLast? == some '>')
  | _ => false

/-- Python `Pattern.match` truthiness for a pattern of the form `(group)$`:
the match is anchored at the start, and `$` matches at the end of the string
or just before a newline that ends the string, so the group must consume
either the whole string or the whole string minus one trailing newline. -/
def pyMatch (g : List Char → Bool) (l : List Char) : Bool :=
  g l || (l.getLast? == some '\n' && g l.dropLast)

/-- The body of `quote` from `lang.py`, on character lists: HTML-like
strings pass through, failed identifiers and DOT keywords are wrapped in
double quotes with embedded double quotes backslash-escaped, everything
else passes through. -/
def quoteChars (l : List Char) : List Char :=
  if pyMatch htmlGroup l then l
  else if !pyMatch idOrNumG l || pyMatch kwGroup l then
    '"' :: (escapeQuotes l ++ ['"'])
  else l

/-- `quote` from `lang.py`: return a DOT identifier from a string, quoting
it if needed. -/
def quote (identifier : String) : String := ⟨quoteChars identifier.data⟩

/-- Python `str.partition` with a single-character separator, restricted to
the two components `quote_edge` keeps (the matched separator itself is
discarded by `quote_edge`): the part before the first occurrence and the
part after it; when the separator does not occur, the second component is
empty, exactly as in Python where both `sep` and the tail are then empty. -/
def pyPartition (c : Char) : List Char → List Char × List Char
  | [] => ([], [])
  | x :: xs =>
    if x = c then ([], xs)
    else
      let p := pyPartition c xs
      (x :: p.1, p.2)

/-- `quote_edge` from `lang.py`: split on the first colon into node and
rest; if rest is nonempty split it on its first colon into port and
compass; quote node and port, pass the compass through verbatim, and join
the collected parts with colons. -/
def quote_edge (identifier : String) : String :=
  let np := pyPartition ':' identifier.data
  if np.2.isEmpty then quote ⟨np.1⟩
  else
    let pc := pyPartition ':' np.2
    if pc.2.isEmpty then quote ⟨np.1⟩ ++ ":" ++ quote ⟨pc.1⟩
    else quote ⟨np.1⟩ ++ ":" ++ quote ⟨pc.1⟩ ++ ":" ++ (⟨pc.2⟩ : String)

/-- Key order used for sorting mapping items: lexicographic comparison of
key strings by character code point, as Python's sort uses on str keys. -/
def keyLeB : List Char → List Char → Bool
  | [], _ => true
  | _ :: _, [] => false
  | a :: as, b :: bs => if a < b then true else if b < a then false else keyLeB as bs

/-- The key order lifted to key/value pairs. -/
def keyPairLe (a b : String × Option String) : Prop := keyLeB a.1.data b.1.data = true

instance : DecidableRel keyPairLe := fun a b =>
  inferInstanceAs (Decidable (keyLeB a.1.data b.1.data = true))

/-- Modelled from the spec: `tools.mapping_items` (module `tools` of the
repository is not under src).  Per the spec, an unordered mapping's
key/value pairs "must be sorted by key before emission" ("Sorts kwargs and
attributes if they are plain dicts").  A mapping is modelled as an
association list of key/value pairs, with `Option` for the absent marker
`None`; `mapping_items` returns its pairs sorted by key. -/
def mapping_items (m : List (String × Option String)) : List (String × Option String) :=
  m.insertionSort keyPairLe

/-- The `attributes` argument of `a_list`: either a mapping (an object with
an `items` attribute, which `a_list` converts through `tools.mapping_items`)
or an already-ordered sequence of key/value pairs, iterated as given. -/
inductive Attributes where
  | mapping (m : List (String × Option String))
  | pairs (l : List (String × Option String))

/-- The key/value pairs `a_list` iterates over for its `attributes`
argument: mappings are converted through `tools.mapping_items`, ordered
sequences are used as given. -/
def Attributes.toItems : Attributes → List (String × Option String)
  | .mapping m => mapping_items m
  | .pairs l => l

/-- Python truthiness of the `attributes` argument inside `a_list`: an
empty dict and an empty sequence are falsy. -/
def Attributes.truthy : Attributes → Bool
  | .mapping m => !m.isEmpty
  | .pairs l => !l.isEmpty

/-- One entry of the list comprehensions in `a_list`: quoted key, equals
sign, quoted value for a present value; nothing for the absent marker
(the `if v is not None` filter). -/
def formatItem (kv : String × Option String) : Option String :=
  kv.2.map (fun v => quote kv.1 ++ "=" ++ quote v)

/-- `a_list` from `lang.py`: the optional label token first, then the
kwargs entries (sorted by key, absent values dropped), then the attributes
entries, all joined by single spaces. -/
def a_list (label : Option String) (kwargs : Option (List (String × Option String)))
    (attributes : Option Attributes) : String :=
  let result := match label with
    | some lb => ["label=" ++ quote lb]
    | none => []
  let result := result ++ (match kwargs with
    | some m => if m.isEmpty then [] else (mapping_items m).filterMap formatItem
    | none => [])
  let result := result ++ (match attributes with
    | some a => if a.truthy then a.toItems.filterMap formatItem else []
    | none => [])
  String.intercalate " " result

/-- `attr_list` from `lang.py`: the empty string when the assembled
`a_list` content is empty, otherwise the content wrapped as a single
leading space, an opening bracket, the content and a closing bracket. -/
def attr_list (label : Option String) (kwargs : Option (List (String × Option String)))
    (attributes : Option Attributes) : String :=
  let content := a_list label kwargs attributes
  if content = "" then "" else " [" ++ content ++ "]"

/-- Modelled from the claim's parse rule for quoted tokens: undo the
backslash-escaping of embedded double quotes, scanning left to right. -/
def unescapeQuotes : List Char → List Char
  | [] => []
  | [c] => [c]
  | a :: b :: t =>
    if a = '\\' ∧ b = '"' then '"' :: unescapeQuotes t
    else a :: unescapeQuotes (b :: t)

/-- Modelled from the claim's parse rule (the target grammar's string
rules): a token surrounded by double quotes has the surrounding quotes
stripped and the backslash-escaping of embedded double quotes undone; bare
identifiers, numerals and HTML-like tokens are taken verbatim. -/
def reparseChars (l : List Char) : List Char :=
  if 2 ≤ l.length ∧ l.head? = some '"' ∧ l.getLast? = some '"' then
    unescapeQuotes (l.drop 1).dropLast
  else l

/-- String-level wrapper of `reparseChars`. -/
def reparse (t : String) : String := ⟨reparseChars t.data⟩

/-! ### Helper lemmas -/

lemma escapeQuotes_eq_nil_iff (l : List Char) : escapeQuotes l = [] ↔ l = [] := by
  cases l with
  | nil => simp [escapeQuotes]
  | cons c t => simp only [escapeQuotes]; split <;> simp

lemma escapeQuotes_head?_ne (l : List Char) : (escapeQuotes l).head? ≠ some '"' := by
  cases l with
  | nil => simp [escapeQuotes]
  | cons c t =>
    simp only [escapeQuotes]
    split
    · simp
    · rename_i h
      simpa using h

lemma unescapeQuotes_escapeQuotes (l : List Char) :
    unescapeQuotes (escapeQuotes l) = l := by
  induction l with
  | nil => rfl
  | cons c t ih =>
    by_cases h : c = '"'
    · subst h
      rw [escapeQuotes, if_pos rfl,
        show unescapeQuotes ('\\' :: '"' :: escapeQuotes t) = '"' :: unescapeQuotes (escapeQuotes t)
          from by simp [unescapeQuotes], ih]
    · rw [escapeQuotes, if_neg h]
      cases he : escapeQuotes t with
      | nil =>
        have ht : t = [] := (escapeQuotes_eq_nil_iff t).mp he
        subst ht
        simp [unescapeQuotes]
      | cons b r =>
        have hb : b ≠ '"' := by
          have hh := escapeQuotes_head?_ne t
          rw [he] at hh
          simpa using hh
        have hcond : ¬(c = '\\' ∧ b = '"') := fun hh => hb hh.2
        rw [show unescapeQuotes (c :: b :: r) = c :: unescapeQuotes (b :: r) from by
          rw [unescapeQuotes, if_neg hcond], ← he, ih]

lemma head?_mem {l : List Char} {c : Char} (h : l.head? = some c) : c ∈ l := by
  cases l with
  | nil => simp at h
  | cons a t => simp at h; subst h; exact List.mem_cons_self a t

lemma dropLast_head? {l : List Char} (h : l.dropLast ≠ []) : l.head? = l.dropLast.head? := by
  match l with
  | [] => simp at h
  | [a] => simp at h
  | a :: b :: t => simp [List.dropLast]

lemma htmlGroup_head {l : List Char} (h : htmlGroup l = true) : l.head? = some '<' := by
  match l with
  | [] => simp [htmlGroup] at h
  | [c] => simp [htmlGroup] at h
  | c :: b :: t =>
    simp [htmlGroup] at h
    simp [h.1]

lemma pyMatch_html_head {l : List Char} (h : pyMatch htmlGroup l = true) :
    l.head? = some '<' := by
  simp [pyMatch] at h
  rcases h with h | ⟨_, h⟩
  · exact htmlGroup_head h
  · have hh := htmlGroup_head h
    have hne : l.dropLast ≠ [] := by
      intro he; rw [he] at hh; simp at hh
    rw [dropLast_head? hne]
    exact hh

/-- The character set of the `ID` pattern: every character of a string
accepted by `idOrNumG` is alphanumeric, an underscore, a minus sign or a
dot. -/
def isIdChar (c : Char) : Prop :=
  c.isAlphanum = true ∨ c = '_' ∨ c = '-' ∨ c = '.'

lemma isIdChar_ne {c : Char} (h : isIdChar c) : c ≠ '\n' ∧ c ≠ '<' ∧ c ≠ '"' := by
  rcases h with h | rfl | rfl | rfl
  · refine ⟨?_, ?_, ?_⟩ <;> (rintro rfl; revert h; decide)
  · refine ⟨by decide, by decide, by decide⟩
  · refine ⟨by decide, by decide, by decide⟩
  · refine ⟨by decide, by decide, by decide⟩

lemma isIdentG_mem {l : List Char} (h : isIdentG l = true) : ∀ c ∈ l, isIdChar c := by
  cases l with
  | nil => simp
  | cons c t =>
    simp only [isIdentG, Bool.and_eq_true, Bool.or_eq_true, List.all_eq_true] at h
    intro x hx
    rcases List.mem_cons.mp hx with rfl | hx
    · rcases h.1 with h1 | h1
      · exact Or.inl (by simp [Char.isAlphanum, h1])
      · exact Or.inr (Or.inl (by simpa using h1))
    · rcases h.2 x hx with h1 | h1
      · exact Or.inl h1
      · exact Or.inr (Or.inl (by simpa using h1))

lemma numBodyG_mem {t : List Char} (h : numBodyG t = true) : ∀ c ∈ t, isIdChar c := by
  rw [numBodyG] at h
  split at h
  · rename_i hdot
    simp only [Bool.and_eq_true, List.all_eq_true] at h
    have hd : t.head? = some '.' := by simpa using hdot
    obtain ⟨ys, rfl⟩ := List.head?_eq_some_iff.mp hd
    intro x hx
    rcases List.mem_cons.mp hx with rfl | hx
    · exact Or.inr (Or.inr (Or.inr rfl))
    · exact Or.inl (by simp [Char.isAlphanum, h.2 x (by simpa using hx)])
  · simp only [Bool.and_eq_true, Bool.or_eq_true, List.all_eq_true] at h
    intro x hx
    rw [← List.takeWhile_append_dropWhile Char.isDigit t] at hx
    rcases List.mem_append.mp hx with hx | hx
    · exact Or.inl (by simp [Char.isAlphanum, List.mem_takeWhile_imp hx])
    · rcases h.2 with h2 | ⟨h2, h3⟩
      · rw [List.isEmpty_iff.mp h2] at hx
        simp at hx
      · have hd : (t.dropWhile Char.isDigit).head? = some '.' := by simpa using h2
        obtain ⟨ys, hys⟩ := List.head?_eq_some_iff.mp hd
        rw [hys] at hx
        rcases List.mem_cons.mp hx with rfl | hx
        · exact Or.inr (Or.inr (Or.inr rfl))
        · have : x.isDigit = true := by
            have := h3 x
            rw [hys] at this
            simpa using this hx
          exact Or.inl (by simp [Char.isAlphanum, this])

lemma numeralG_mem {l : List Char} (h : numeralG l = true) : ∀ c ∈ l, isIdChar c := by
  rw [numeralG] at h
  split at h
  · rename_i hm
    have hd : l.head? = some '-' := by simpa using hm
    obtain ⟨ys, rfl⟩ := List.head?_eq_some_iff.mp hd
    intro x hx
    rcases List.mem_cons.mp hx with rfl | hx
    · exact Or.inr (Or.inr (Or.inl rfl))
    · exact numBodyG_mem (by simpa using h) x hx
  · exact numBodyG_mem h

lemma idOrNumG_mem {l : List Char} (h : idOrNumG l = true) : ∀ c ∈ l, isIdChar c := by
  rcases Bool.or_eq_true_iff.mp h with h | h
  · exact isIdentG_mem h
  · exact numeralG_mem h

lemma idOrNumG_nil : idOrNumG [] = false := by decide

lemma pyMatch_id_head_ne {l : List Char} (h : pyMatch idOrNumG l = true) {c : Char}
    (hc : l.head? = some c) : c ≠ '"' := by
  simp [pyMatch] at h
  rcases h with h | ⟨_, h⟩
  · exact (isIdChar_ne (idOrNumG_mem h c (head?_mem hc))).2.2
  · have hne : l.dropLast ≠ [] := by
      intro he; rw [he, idOrNumG_nil] at h; exact absurd h (by simp)
    rw [dropLast_head? hne] at hc
    exact (isIdChar_ne (idOrNumG_mem h c (head?_mem hc))).2.2

lemma keyLeB_total (a b : List Char) : keyLeB a b = true ∨ keyLeB b a = true := by
  induction a generalizing b with
  | nil => left; rfl
  | cons x as ih =>
    cases b with
    | nil => right; rfl
    | cons y bs =>
      rcases lt_trichotomy x y with h | h | h
      · left; rw [keyLeB, if_pos h]
      · subst h
        rcases ih bs with h2 | h2
        · left; rw [keyLeB, if_neg (lt_irrefl x), if_neg (lt_irrefl x)]; exact h2
        · right; rw [keyLeB, if_neg (lt_irrefl x), if_neg (lt_irrefl x)]; exact h2
      · right; rw [keyLeB, if_pos h]

lemma keyLeB_trans {a b c : List Char} (h1 : keyLeB a b = true) (h2 : keyLeB b c = true) :
    keyLeB a c = true := by
  induction a generalizing b c with
  | nil => rfl
  | cons x as ih =>
    cases b with
    | nil => rw [keyLeB] at h1; exact absurd h1 (by simp)
    | cons y bs =>
      cases c with
      | nil => rw [keyLeB] at h2; exact absurd h2 (by simp)
      | cons z cs =>
        rw [keyLeB] at h1 h2 ⊢
        split_ifs at h1 with hxy hyx
        · split_ifs at h2 with hyz hzy
          · rw [if_pos (lt_trans hxy hyz)]
          · have hyz' : y = z := le_antisymm (not_lt.mp hzy) (not_lt.mp hyz)
            subst hyz'
            rw [if_pos hxy]
        · have hxy' : x = y := le_antisymm (not_lt.mp hyx) (not_lt.mp hxy)
          subst hxy'
          split_ifs at h2 with hyz hzy
          · rw [if_pos hyz]
          · rw [if_neg hyz, if_neg hzy]
            exact ih h1 h2

lemma keyLeB_antisymm {a b : List Char} (h1 : keyLeB a b = true) (h2 : keyLeB b a = true) :
    a = b := by
  induction a generalizing b with
  | nil =>
    cases b with
    | nil => rfl
    | cons y bs => rw [keyLeB] at h2; exact absurd h2 (by simp)
  | cons x as ih =>
    cases b with
    | nil => rw [keyLeB] at h1; exact absurd h1 (by simp)
    | cons y bs =>
      rw [keyLeB] at h1 h2
      split_ifs at h1 with hxy hyx
      · split_ifs at h2 with hyx2
        exact absurd hyx2 (lt_asymm hxy)
      · have hxy' : x = y := le_antisymm (not_lt.mp hyx) (not_lt.mp hxy)
        subst hxy'
        rw [if_neg (lt_irrefl x), if_neg (lt_irrefl x)] at h2
        exact congrArg (List.cons x) (ih h1 h2)

instance : IsTotal (String × Option String) keyPairLe :=
  ⟨fun a b => keyLeB_total a.1.data b.1.data⟩

instance : IsTrans (String × Option String) keyPairLe :=
  ⟨fun _ _ _ h1 h2 => keyLeB_trans h1 h2⟩

lemma keyPairLe_antisymm_key {a b : String × Option String} (h1 : keyPairLe a b)
    (h2 : keyPairLe b a) : a.1 = b.1 :=
  String.ext (keyLeB_antisymm h1 h2)

/-- Two lists of key/value pairs that are permutations of each other, both
sorted by key, with no duplicate key, are equal. -/
lemma sorted_perm_nodupkeys_eq : ∀ {l₁ l₂ : List (String × Option String)},
    List.Perm l₁ l₂ → List.Sorted keyPairLe l₁ → List.Sorted keyPairLe l₂ →
    (l₁.map Prod.fst).Nodup → l₁ = l₂ := by
  intro l₁
  induction l₁ with
  | nil => intro l₂ hp _ _ _; exact (hp.symm.eq_nil).symm
  | cons a t₁ ih =>
    intro l₂ hp hs₁ hs₂ hnd
    cases l₂ with
    | nil => exact absurd hp.eq_nil (by simp)
    | cons b t₂ =>
      by_cases hab : a = b
      · subst hab
        rw [List.sorted_cons] at hs₁ hs₂
        rw [List.map_cons, List.nodup_cons] at hnd
        rw [ih hp.cons_inv hs₁.2 hs₂.2 hnd.2]
      · exfalso
        have hbmem : b ∈ a :: t₁ := hp.mem_iff.mpr (List.mem_cons_self b t₂)
        have hamem : a ∈ b :: t₂ := hp.mem_iff.mp (List.mem_cons_self a t₁)
        have hb_t₁ : b ∈ t₁ := by
          rcases List.mem_cons.mp hbmem with h | h
          · exact absurd h.symm hab
          · exact h
        have ha_t₂ : a ∈ t₂ := by
          rcases List.mem_cons.mp hamem with h | h
          · exact absurd h hab
          · exact h
        have h1 : keyPairLe a b := (List.sorted_cons.mp hs₁).1 b hb_t₁
        have h2 : keyPairLe b a := (List.sorted_cons.mp hs₂).1 a ha_t₂
        have hkey : a.1 = b.1 := keyPairLe_antisymm_key h1 h2
        rw [List.map_cons, List.nodup_cons] at hnd
        refine hnd.1 ?_
        rw [hkey]
        exact List.mem_map_of_mem Prod.fst hb_t₁

lemma mapping_items_perm_eq {m₁ m₂ : List (String × Option String)}
    (hp : List.Perm m₁ m₂) (hnd : (m₁.map Prod.fst).Nodup) :
    mapping_items m₁ = mapping_items m₂ := by
  refine sorted_perm_nodupkeys_eq ?_ ?_ ?_ ?_
  · exact (List.perm_insertionSort keyPairLe m₁).trans
      (hp.trans (List.perm_insertionSort keyPairLe m₂).symm)
  · exact List.sorted_insertionSort keyPairLe m₁
  · exact List.sorted_insertionSort keyPairLe m₂
  · exact (((List.perm_insertionSort keyPairLe m₁).map Prod.fst).symm).nodup hnd

lemma pyPartition_not_mem {c : Char} {l : List Char} (h : c ∉ l) :
    pyPartition c l = (l, []) := by
  induction l with
  | nil => rfl
  | cons x xs ih =>
    have hx : ¬ x = c := by rintro rfl; exact h (List.mem_cons_self x xs)
    have hxs : c ∉ xs := fun hm => h (List.mem_cons.mpr (Or.inr hm))
    rw [pyPartition, if_neg hx, ih hxs]

lemma pyPartition_append {c : Char} {n r : List Char} (h : c ∉ n) :
    pyPartition c (n ++ c :: r) = (n, r) := by
  induction n with
  | nil => simp [pyPartition]
  | cons x xs ih =>
    have hx : ¬ x = c := by rintro rfl; exact h (List.mem_cons_self x xs)
    have hxs : c ∉ xs := fun hm => h (List.mem_cons.mpr (Or.inr hm))
    rw [List.cons_append, pyPartition, if_neg hx, ih hxs]

/-! ### Claim theorems -/

/-- C1 (counterexample to the claim as stated): the input consisting of the
letter a followed by a newline does not start with a less-than sign (nor
end with a greater-than sign), fails the bare-identifier/numeral grammar
and is not a reserved word, yet `quote` returns it unchanged instead of
wrapped in double quotes: Python's end anchor also matches just before a
trailing newline, so the `ID` pattern matches this input. -/
theorem quote_claimC1_counterexample :
    ("a\n" : String).data.head? ≠ some '<' ∧ idOrNumG ("a\n" : String).data = false ∧
      kwGroup ("a\n" : String).data = false ∧ quote "a\n" = "a\n" ∧
      quote "a\n" ≠ "\"a\n\"" := by
  refine ⟨by decide, by decide, by decide, by decide, by decide⟩

/-- C1 (amended): for every input string on which the HTML-like pattern
fails under Python's end-anchor rule (the anchor also matches just before a
single trailing newline) and on which, under that same rule, either the
bare-identifier/numeral grammar fails or the reserved-word pattern
matches, `quote` returns the input wrapped in double quotes with every
embedded double-quote character prefixed by a backslash and no other
character altered. -/
theorem quote_wraps_and_escapes (s : String) (h1 : pyMatch htmlGroup s.data = false)
    (h2 : pyMatch idOrNumG s.data = false ∨ pyMatch kwGroup s.data = true) :
    quote s = "\"" ++ (⟨escapeQuotes s.data⟩ : String) ++ "\"" := by
  obtain ⟨l⟩ := s
  show (⟨quoteChars l⟩ : String) = ⟨'"' :: (escapeQuotes l ++ ['"'])⟩
  refine congrArg String.mk ?_
  rw [quoteChars, if_neg (by rw [h1]; exact Bool.false_ne_true), if_pos ?_]
  rcases h2 with h2 | h2
  · rw [h2]; rfl
  · rw [h2, Bool.or_true]

/-- C1 (witness): the empty string satisfies the amended hypotheses and is
quoted to the two-character string of two double quotes; a string with an
inner space is quoted likewise. -/
theorem quote_wraps_and_escapes_witness :
    pyMatch htmlGroup ("" : String).data = false ∧
      pyMatch idOrNumG ("" : String).data = false ∧
      quote "" = "\"\"" ∧ quote "spam spam" = "\"spam spam\"" :=
  ⟨by decide, by decide,
    (quote_wraps_and_escapes "" (by decide) (Or.inl (by decide))).trans (by decide),
    (quote_wraps_and_escapes "spam spam" (by decide) (Or.inl (by decide))).trans (by decide)⟩

/-- C2: `a_list` on label spam and the mapping with spam mapped to the
absent marker, ham mapped to ham ham and eggs mapped to the empty string
returns exactly the string with the label token first, the absent-valued
entry dropped, the empty-string-valued entry emitted as an empty quoted
string, the remaining entries in key-sorted order and tokens joined by
single spaces. -/
theorem a_list_doctest_example :
    a_list (some "spam") (some [("spam", none), ("ham", some "ham ham"), ("eggs", some "")])
      none = "label=spam eggs=\"\" ham=\"ham ham\"" := by
  decide

/-- C3: `attr_list` returns the empty string exactly when `a_list` on the
same arguments does, and otherwise returns a single leading space, an
opening bracket, the `a_list` result and a closing bracket; in particular
`attr_list` with no arguments returns the empty string. -/
theorem attr_list_wraps_alist (label : Option String)
    (kwargs : Option (List (String × Option String))) (attributes : Option Attributes) :
    attr_list label kwargs attributes =
      (if a_list label kwargs attributes = "" then ""
        else " [" ++ a_list label kwargs attributes ++ "]") ∧
    (attr_list label kwargs attributes = "" ↔ a_list label kwargs attributes = "") ∧
    attr_list none none none = "" := by
  refine ⟨rfl, ⟨?_, ?_⟩, by decide⟩
  · intro h
    by_cases hc : a_list label kwargs attributes = ""
    · exact hc
    · exfalso
      rw [attr_list] at h
      simp only [if_neg hc] at h
      have hd := congrArg String.data h
      simp [String.data_append] at hd
  · intro h
    simp [attr_list, h]

/-- C4: every string that fully matches the bare-identifier or numeral
grammar and is not, case-insensitively, one of the six reserved words is
returned by `quote` unmodified. -/
theorem quote_bare_identifier_unmodified (s : String) (h1 : idOrNumG s.data = true)
    (h2 : kwGroup s.data = false) : quote s = s := by
  obtain ⟨l⟩ := s
  replace h1 : idOrNumG l = true := h1
  replace h2 : kwGroup l = false := h2
  show (⟨quoteChars l⟩ : String) = ⟨l⟩
  refine congrArg String.mk ?_
  have hmem := idOrNumG_mem h1
  have hlast : l.getLast? ≠ some '\n' := by
    intro he
    exact (isIdChar_ne (hmem '\n' (List.mem_of_getLast?_eq_some he))).1 rfl
  have hht : pyMatch htmlGroup l = false := by
    simp only [pyMatch, Bool.or_eq_false_iff, Bool.and_eq_false_iff]
    constructor
    · by_contra hh
      rw [Bool.not_eq_false] at hh
      have := htmlGroup_head hh
      exact (isIdChar_ne (hmem '<' (head?_mem this))).2.1 rfl
    · left
      simpa using hlast
  have hkw : pyMatch kwGroup l = false := by
    simp only [pyMatch, Bool.or_eq_false_iff, Bool.and_eq_false_iff]
    exact ⟨h2, Or.inl (by simpa using hlast)⟩
  have hid : pyMatch idOrNumG l = true := by
    simp [pyMatch, h1]
  rw [quoteChars, if_neg (by rw [hht]; exact Bool.false_ne_true),
    if_neg (by rw [hid, hkw]; simp)]

/-- C4 (witness): the numerals with a leading minus and with a leading dot
satisfy the grammar, are not reserved words, and pass through `quote`
unmodified. -/
theorem quote_bare_identifier_unmodified_witness :
    idOrNumG ("-4.2" : String).data = true ∧ kwGroup ("-4.2" : String).data = false ∧
      quote "-4.2" = "-4.2" ∧ quote ".42" = ".42" :=
  ⟨by decide, by decide, quote_bare_identifier_unmodified "-4.2" (by decide) (by decide),
    quote_bare_identifier_unmodified ".42" (by decide) (by decide)⟩

/-- C5: every string that starts with a less-than sign and ends with a
greater-than sign, with any content in between, is returned by `quote`
completely unmodified. -/
theorem quote_html_passthrough (s : String) (h1 : s.data.head? = some '<')
    (h2 : s.data.getLast? = some '>') : quote s = s := by
  obtain ⟨l⟩ := s
  replace h1 : l.head? = some '<' := h1
  replace h2 : l.getLast? = some '>' := h2
  show (⟨quoteChars l⟩ : String) = ⟨l⟩
  refine congrArg String.mk ?_
  obtain ⟨ys, rfl⟩ := List.head?_eq_some_iff.mp h1
  have hg : htmlGroup ('<' :: ys) = true := by
    cases ys with
    | nil => simp at h2
    | cons b t =>
      rw [List.getLast?_cons_cons] at h2
      simp [htmlGroup, h2]
  rw [quoteChars, if_pos (by simp [pyMatch, hg])]

/-- C5 (witness): an HTML-like label containing nested tags and characters
that would otherwise force quoting passes through unmodified. -/
theorem quote_html_passthrough_witness :
    ("<<b>spam</b>>" : String).data.head? = some '<' ∧
      ("<<b>spam</b>>" : String).data.getLast? = some '>' ∧
      quote "<<b>spam</b>>" = "<<b>spam</b>>" :=
  ⟨by decide, by decide, quote_html_passthrough "<<b>spam</b>>" (by decide) (by decide)⟩

/-- C6: re-parsing the output of `quote` under the target grammar's string
rules (strip the surrounding double quotes and undo the backslash-escaping
of embedded double quotes for a quoted token, take bare-identifier, numeral
and HTML-like tokens verbatim) yields exactly the original string. -/
theorem quote_reparse_roundtrip (s : String) : reparse (quote s) = s := by
  obtain ⟨l⟩ := s
  show (⟨reparseChars (quoteChars l)⟩ : String) = ⟨l⟩
  refine congrArg String.mk ?_
  cases hh : pyMatch htmlGroup l with
  | true =>
    rw [quoteChars, if_pos (by rw [hh])]
    have hc := pyMatch_html_head hh
    rw [reparseChars, if_neg]
    rintro ⟨-, h2, -⟩
    rw [hc] at h2
    simp at h2
  | false =>
    cases hq : (!pyMatch idOrNumG l || pyMatch kwGroup l) with
    | true =>
      rw [quoteChars, if_neg (by rw [hh]; exact Bool.false_ne_true), if_pos (by rw [hq])]
      have hcond : 2 ≤ ('"' :: (escapeQuotes l ++ ['"'])).length ∧
          ('"' :: (escapeQuotes l ++ ['"'])).head? = some '"' ∧
          ('"' :: (escapeQuotes l ++ ['"'])).getLast? = some '"' := by
        refine ⟨by simp, rfl, ?_⟩
        rw [show ('"' :: (escapeQuotes l ++ ['"'])) = ('"' :: escapeQuotes l) ++ ['"'] by simp,
          List.getLast?_concat]
      rw [reparseChars, if_pos hcond]
      show unescapeQuotes (escapeQuotes l ++ ['"']).dropLast = l
      rw [List.dropLast_concat]
      exact unescapeQuotes_escapeQuotes l
    | false =>
      rw [quoteChars, if_neg (by rw [hh]; exact Bool.false_ne_true),
        if_neg (by rw [hq]; exact Bool.false_ne_true)]
      have hid : pyMatch idOrNumG l = true := by
        rcases Bool.or_eq_false_iff.mp hq with ⟨hq1, -⟩
        simpa using hq1
      cases l with
      | nil =>
        rw [reparseChars, if_neg]
        rintro ⟨h2, -⟩
        simp at h2
      | cons c t =>
        have hc : c ≠ '"' := pyMatch_id_head_ne hid rfl
        rw [reparseChars, if_neg]
        rintro ⟨-, h2, -⟩
        simp at h2
        exact hc h2

/-- C7: `quote_edge` never emits a trailing empty component: an input with
no colon is quoted as a whole; an input that is a colon-free node followed
by a final colon yields only the quoted node, with no port segment; and an
input that is node colon port colon with nothing after the second colon
yields the quoted node and quoted port with no compass segment. -/
theorem quote_edge_trailing_empty (s : String) :
    (':' ∉ s.data → quote_edge s = quote s) ∧
    (∀ n : List Char, ':' ∉ n → s.data = n ++ [':'] → quote_edge s = quote ⟨n⟩) ∧
    (∀ n p : List Char, ':' ∉ n → ':' ∉ p → s.data = n ++ ':' :: (p ++ [':']) →
      quote_edge s = quote ⟨n⟩ ++ ":" ++ quote ⟨p⟩) := by
  obtain ⟨l⟩ := s
  refine ⟨?_, ?_, ?_⟩
  · intro h
    replace h : ':' ∉ l := h
    show quote_edge ⟨l⟩ = quote ⟨l⟩
    simp [quote_edge, pyPartition_not_mem h]
  · intro n hn hl
    replace hl : l = n ++ [':'] := hl
    subst hl
    show quote_edge ⟨n ++ [':']⟩ = quote ⟨n⟩
    simp [quote_edge, pyPartition_append hn]
  · intro n p hn hp hl
    replace hl : l = n ++ ':' :: (p ++ [':']) := hl
    subst hl
    show quote_edge ⟨n ++ ':' :: (p ++ [':'])⟩ = quote ⟨n⟩ ++ ":" ++ quote ⟨p⟩
    simp [quote_edge, pyPartition_append hn, pyPartition_append hp, List.isEmpty_iff]

/-- C7 (witness): an input with no colon, an input ending in its only
colon, and an input whose compass part is empty. -/
theorem quote_edge_trailing_empty_witness :
    quote_edge "spam" = "spam" ∧ quote_edge "a:" = "a" ∧ quote_edge "a:b:" = "a:b" := by
  refine ⟨?_, ?_, ?_⟩
  · exact ((quote_edge_trailing_empty "spam").1 (by decide)).trans (by decide)
  · exact ((quote_edge_trailing_empty "a:").2.1 ['a'] (by decide) (by decide)).trans (by decide)
  · exact ((quote_edge_trailing_empty "a:b:").2.2 ['a'] ['b'] (by decide) (by decide)
      (by decide)).trans (by decide)

/-- C8: two mappings holding exactly the same key/value pairs (permutations
of each other, with no duplicate key) produce byte-identical `a_list` and
`attr_list` output, whether given as the kwargs argument or as a mapping in
the attributes argument, because mapping entries are sorted by key before
emission. -/
theorem alist_order_independent (label : Option String) (attrs : Option Attributes)
    (m₁ m₂ : List (String × Option String)) (hp : List.Perm m₁ m₂)
    (hnd : (m₁.map Prod.fst).Nodup) :
    (a_list label (some m₁) attrs = a_list label (some m₂) attrs ∧
      attr_list label (some m₁) attrs = attr_list label (some m₂) attrs) ∧
    ∀ kwargs, a_list label kwargs (some (Attributes.mapping m₁)) =
        a_list label kwargs (some (Attributes.mapping m₂)) ∧
      attr_list label kwargs (some (Attributes.mapping m₁)) =
        attr_list label kwargs (some (Attributes.mapping m₂)) := by
  have hitems := mapping_items_perm_eq hp hnd
  have hemp : m₁.isEmpty = m₂.isEmpty := by
    cases m₁ with
    | nil => rw [hp.symm.eq_nil]
    | cons a t =>
      cases m₂ with
      | nil => exact absurd hp.eq_nil (by simp)
      | cons b u => rfl
  have halist : ∀ attrs2, a_list label (some m₁) attrs2 = a_list label (some m₂) attrs2 := by
    intro attrs2
    simp only [a_list, hitems, hemp]
  have halist2 : ∀ kwargs, a_list label kwargs (some (Attributes.mapping m₁)) =
      a_list label kwargs (some (Attributes.mapping m₂)) := by
    intro kwargs
    simp only [a_list, Attributes.toItems, Attributes.truthy, hitems, hemp]
  refine ⟨⟨halist attrs, ?_⟩, fun kwargs => ⟨halist2 kwargs, ?_⟩⟩
  · simp only [attr_list, halist attrs]
  · simp only [attr_list, halist2 kwargs]

/-- C8 (witness): the same two entries given in either order produce the
same key-sorted output. -/
theorem alist_order_independent_witness :
    a_list none (some [("b", some "1"), ("a", some "2")]) none =
      a_list none (some [("a", some "2"), ("b", some "1")]) none ∧
    a_list none (some [("b", some "1"), ("a", some "2")]) none = "a=2 b=1" :=
  ⟨(alist_order_independent none none [("b", some "1"), ("a", some "2")]
      [("a", some "2"), ("b", some "1")] (List.Perm.swap _ _ _) (by decide)).1.1,
    by decide⟩

/-- C9: for a colon-free node and a non-empty compass, an input of the form
node, double colon, compass keeps the empty port as a quoted empty string:
the output is the quoted node, a colon, two double quotes, a colon and the
compass. The treated-as-absent rule applies only to trailing empty
components. -/
theorem quote_edge_empty_port_kept (node compass : String) (h1 : ':' ∉ node.data)
    (h2 : compass ≠ "") :
    quote_edge (node ++ "::" ++ compass) = quote node ++ ":\"\":" ++ compass := by
  obtain ⟨n⟩ := node
  obtain ⟨c⟩ := compass
  replace h1 : ':' ∉ n := h1
  replace h2 : c ≠ [] := fun hh => h2 (by rw [show c = ([] : List Char) from hh])
  rw [show ((⟨n⟩ : String) ++ "::" ++ ⟨c⟩) = (⟨n ++ ':' :: (':' :: c)⟩ : String) from
    String.ext (by simp [String.data_append])]
  rw [show (":\"\":" : String) = ":" ++ "\"\"" ++ ":" from by decide]
  have hpc : pyPartition ':' (':' :: c) = ([], c) := by simp [pyPartition]
  simp only [quote_edge, pyPartition_append h1, hpc]
  rw [show ((':' :: c).isEmpty) = false from rfl]
  simp only [Bool.false_eq_true, if_false]
  rw [show (c.isEmpty) = false from by simp [List.isEmpty_iff, h2],
    show quote (⟨[]⟩ : String) = "\"\"" from by decide]
  simp only [Bool.false_eq_true, if_false]
  apply String.ext
  simp [String.data_append]

/-- C9 (witness): the input a double-colon n keeps the empty port as a
quoted empty string between the node and the compass. -/
theorem quote_edge_empty_port_kept_witness :
    quote_edge ("a" ++ "::" ++ "n") = quote "a" ++ ":\"\":" ++ "n" ∧
      quote_edge "a::n" = "a:\"\":n" :=
  ⟨quote_edge_empty_port_kept "a" "n" (by decide) (by decide), by decide⟩

/-- C10: for an input with at least two colons (a colon-free node, a
colon-free port and a non-empty tail after the second colon), `quote_edge`
emits the tail verbatim as the compass part, with no quoting, no escaping
and no further splitting, whatever characters the tail holds. -/
theorem quote_edge_compass_verbatim (n p c : List Char) (h1 : ':' ∉ n) (h2 : ':' ∉ p)
    (h3 : c ≠ []) :
    quote_edge ⟨n ++ ':' :: (p ++ ':' :: c)⟩ =
      quote ⟨n⟩ ++ ":" ++ quote ⟨p⟩ ++ ":" ++ (⟨c⟩ : String) := by
  simp [quote_edge, pyPartition_append h1, pyPartition_append h2, List.isEmpty_iff, h3]

/-- C10 (witness): tails holding a further colon or a space are passed
through unsplit and unquoted. -/
theorem quote_edge_compass_verbatim_witness :
    quote_edge ⟨['a', ':', 'b', ':', 'c', ':', 'd']⟩ = "a:b:c:d" ∧
      quote_edge ⟨['a', ':', 'b', ':', 'c', ' ', 'd']⟩ = "a:b:c d" := by
  constructor
  · exact (quote_edge_compass_verbatim ['a'] ['b'] ['c', ':', 'd'] (by decide) (by decide)
      (by decide)).trans (by decide)
  · exact (quote_edge_compass_verbatim ['a'] ['b'] ['c', ' ', 'd'] (by decide) (by decide)
      (by decide)).trans (by decide)

/-! ### The doctests of `lang.py`, checked against the embedding -/

lemma doctest_quote :
    quote "" = "\"\"" ∧ quote "spam" = "spam" ∧ quote "spam spam" = "\"spam spam\"" ∧
      quote "-4.2" = "-4.2" ∧ quote ".42" = ".42" ∧
      quote "<<b>spam</b>>" = "<<b>spam</b>>" := by
  refine ⟨by decide, by decide, by decide, by decide, by decide, by decide⟩

lemma doctest_quote_edge :
    quote_edge "spam" = "spam" ∧
      quote_edge "spam spam:eggs eggs" = "\"spam spam\":\"eggs eggs\"" ∧
      quote_edge "spam:eggs:s" = "spam:eggs:s" := by
  refine ⟨by decide, by decide, by decide⟩

lemma doctest_attr_list :
    attr_list none none none = "" ∧
      attr_list (some "spam spam") (some [("eggs", some "eggs"), ("ham", some "ham ham")])
        none = " [label=\"spam spam\" eggs=eggs ham=\"ham ham\"]" ∧
      attr_list none (some [("spam", none), ("eggs", some "")]) none = " [eggs=\"\"]" := by
  refine ⟨by decide, by decide, by decide⟩

/-- The end-anchor quirk of the `ID` pattern, checked concretely: a
trailing newline is tolerated by the match. -/
lemma quote_trailing_newline_unquoted : quote "a\n" = "a\n" ∧ quote "node" = "\"node\"" ∧
    quote "NoDe" = "\"NoDe\"" := by
  refine ⟨by decide, by decide, by decide⟩

end GraphvizLang
